import Mathlib

/-
Verification of the fand streaming-pipeline daemon.

The Rust source is shallowly embedded: f64 arithmetic is modelled by exact
rational arithmetic (all operations the claims exercise are sums, products,
divisions, comparisons, truncations and roundings of small decimal values, on
which f64 and exact arithmetic agree for the instances evaluated here), u32 and
u64 casts by explicit saturating truncation, iterators over the sensor by
finite lists, and a Rust panic by the error case of Except.
-/

/-- Largest value of a u64, the saturation bound of Rust float-to-u64 casts. -/
def U64MAX : ℕ := 18446744073709551615

/-- Largest value of a u32, the saturation bound of Rust float-to-u32 casts. -/
def U32MAX : ℕ := 4294967295

/-- Rust f64::round: round half away from zero. -/
def rustRound (q : ℚ) : ℤ := if 0 ≤ q then ⌊q + 1/2⌋ else ⌈q - 1/2⌉

/-- Rust cast of an integer-valued float to u64 (as u64): saturating, so
negative values become 0 and values above u64::MAX become u64::MAX. -/
def castU64Z (z : ℤ) : ℕ := if z < 0 then 0 else min z.toNat U64MAX

/-- Rust cast of a float to u64 (as u64): truncation toward zero with
saturation at 0 and u64::MAX. -/
def castU64Q (q : ℚ) : ℕ := if q < 0 then 0 else min ⌊q⌋.toNat U64MAX

/-- Rust cast of a float to u32 (as u32): truncation toward zero with
saturation at 0 and u32::MAX. -/
def castU32Q (q : ℚ) : ℕ := if q < 0 then 0 else min ⌊q⌋.toNat U32MAX

/-
Scheduler loop (src/outputs.rs, sample_forever).

The loop keeps a variable last, initialised to 0.0, pulls values from the
chain until it yields nothing, pushes the pulled value to the sink exactly
when (last * 100.).round() as u64 differs from (next * 100.).round() as u64,
and then sets last to the pulled value whether or not it was pushed.
-/

/-- The forwarding key of a value in sample_forever:
(val * 100.).round() as u64. -/
def fwdKey (x : ℚ) : ℕ := castU64Z (rustRound (x * 100))

/-- The body of the sample_forever loop (src/outputs.rs lines 29-40): last is
the previously pulled value, the list is what the chain will still produce,
and the result is the list of values pushed to the sink, in order. -/
def sfGo (last : ℚ) : List ℚ → List ℚ
  | [] => []
  | x :: r => if fwdKey last ≠ fwdKey x then x :: sfGo x r else sfGo x r

/-- sample_forever on a chain producing xs: the values pushed to the sink.
last starts at 0.0 (src/outputs.rs line 29). -/
def sampleForever (xs : List ℚ) : List ℚ := sfGo 0 xs

/-- Specification-side definition for the refinement claim: the
output-suppression policy as the spec words it, comparing each new value
against the previously forwarded value (rather than the previously pulled
one), with the initial reference value 0.0. -/
def specGo (lastFwd : ℚ) : List ℚ → List ℚ
  | [] => []
  | x :: r => if fwdKey lastFwd ≠ fwdKey x then x :: specGo x r else specGo lastFwd r

/-- The spec-worded suppression policy applied to a whole input sequence. -/
def specForward (xs : List ℚ) : List ℚ := specGo 0 xs

lemma sfGo_eq_specGo (xs : List ℚ) : ∀ last fwd : ℚ, fwdKey last = fwdKey fwd →
    sfGo last xs = specGo fwd xs := by
  induction xs with
  | nil => intro _ _ _; rfl
  | cons x r ih =>
    intro last fwd h
    rw [sfGo, specGo, h]
    by_cases hx : fwdKey fwd ≠ fwdKey x
    · rw [if_pos hx, if_pos hx, ih x x rfl]
    · rw [if_neg hx, if_neg hx]
      push_neg at hx
      exact ih x fwd hx.symm

/-- Claim C1 (counterexample): the very first value pulled from the chain is
not always forwarded to the sink. With input sequence [0.001] the first pulled
value rounds to the same two-decimal key as the initial last value 0.0, so
nothing at all is pushed to the sink. -/
theorem sample_forever_first_value_can_be_suppressed :
    sampleForever [1/1000] = [] := by
  have h : fwdKey 0 = fwdKey (1/1000) := by
    norm_num [fwdKey, castU64Z, rustRound]
  rw [sampleForever, sfGo, if_neg (by push_neg; exact h)]
  rfl

/-- Claim C1 (amended): the values forwarded by sample_forever are exactly
those described by the suppression policy with the reference value initialised
to 0.0: a value is forwarded if and only if its value rounded to two decimal
digits (via (x*100).round() as u64) differs from the rounding of the
previously forwarded value, where the first comparison is against 0.0 rather
than unconditional forwarding. In particular, with previously forwarded
50.004, a new value 50.001 is not forwarded and a subsequent 50.01 is. -/
theorem sample_forever_suppression_policy :
    (∀ xs : List ℚ, sampleForever xs = specForward xs) ∧
    sampleForever [50.004, 50.001, 50.01] = [50.004, 50.01] := by
  constructor
  · intro xs
    exact sfGo_eq_specGo xs 0 0 rfl
  · have h0 : fwdKey 0 = 0 := by norm_num [fwdKey, castU64Z, rustRound]
    have h1 : fwdKey 50.004 = 5000 := by
      norm_num [fwdKey, castU64Z, rustRound, U64MAX]
      decide
    have h2 : fwdKey 50.001 = 5000 := by
      norm_num [fwdKey, castU64Z, rustRound, U64MAX]
      decide
    have h3 : fwdKey 50.01 = 5001 := by
      norm_num [fwdKey, castU64Z, rustRound, U64MAX]
      decide
    have e1 : fwdKey 0 ≠ fwdKey 50.004 := by rw [h0, h1]; decide
    have e2 : ¬ fwdKey 50.004 ≠ fwdKey 50.001 := by rw [h1, h2]; decide
    have e3 : fwdKey 50.001 ≠ fwdKey 50.01 := by rw [h2, h3]; decide
    rw [sampleForever, sfGo, if_pos e1, sfGo, if_neg e2, sfGo, if_pos e3]
    rfl

/-
PID stage (src/operations/mod.rs lines 59-139).

The stage feeds each upstream value into the external pid crate
(pid::Pid::next_control_output) and post-processes the returned p, i, d terms.
The pid crate is a third-party dependency outside this repository, so its
control outputs are modelled as an arbitrary oracle: ctrl k is the triple
(p, i, d) returned by the k-th call to next_control_output. The stage then
rectifies each term (keeping the magnitude of a negative term and zeroing a
non-negative one), truncates the sum to u32, clamps it to [0, 100] and adds
the configured u32 offset (PIDParameters.offset). The final addition
self.offset + clamped is u32 arithmetic: it wraps modulo 2^32 in release
builds (and panics in debug builds) whenever offset + clamped exceeds
u32::MAX, so the model performs the addition modulo 2^32.
-/

/-- The body of PID::next on one control output (p, i, d): rectification,
u32 truncation, clamping to [0, 100] and u32 offset addition (wrapping
modulo 2^32, the release-build semantics of the u32 sum), as in
src/operations/mod.rs lines 83-107. -/
def pidOutput (ctl : ℚ × ℚ × ℚ) (offset : ℕ) : ℚ :=
  let p := if ctl.1 < 0 then -ctl.1 else 0
  let i := if ctl.2.1 < 0 then -ctl.2.1 else 0
  let d := if ctl.2.2 < 0 then -ctl.2.2 else 0
  (((offset + max 0 (min 100 (castU32Q (p + i + d)))) % 4294967296 : ℕ) : ℚ)

/-- The PID stage run over a finite upstream sequence: one output per
upstream value, the k-th output computed from the k-th oracle triple. -/
def pidRun (ctrl : ℕ → ℚ × ℚ × ℚ) (offset : ℕ) : ℕ → List ℚ → List ℚ
  | _, [] => []
  | k, _ :: r => pidOutput (ctrl k) offset :: pidRun ctrl offset (k + 1) r

lemma offsetClamp_bounds (offset s : ℕ) (hoff : offset + 100 < 4294967296) :
    (offset : ℚ) ≤ (((offset + max 0 (min 100 s)) % 4294967296 : ℕ) : ℚ) ∧
    (((offset + max 0 (min 100 s)) % 4294967296 : ℕ) : ℚ) ≤ (offset : ℚ) + 100 := by
  have hlt : offset + max 0 (min 100 s) < 4294967296 := by omega
  rw [Nat.mod_eq_of_lt hlt]
  constructor
  · exact_mod_cast Nat.le_add_right offset _
  · have h : offset + max 0 (min 100 s) ≤ offset + 100 := by omega
    calc ((offset + max 0 (min 100 s) : ℕ) : ℚ) ≤ ((offset + 100 : ℕ) : ℚ) := by
          exact_mod_cast h
      _ = (offset : ℚ) + 100 := by push_cast; ring

lemma pidOutput_bounds (ctl : ℚ × ℚ × ℚ) (offset : ℕ)
    (hoff : offset + 100 < 4294967296) :
    (offset : ℚ) ≤ pidOutput ctl offset ∧ pidOutput ctl offset ≤ offset + 100 := by
  unfold pidOutput
  exact offsetClamp_bounds offset _ hoff

lemma pidRun_mem (ctrl : ℕ → ℚ × ℚ × ℚ) (offset : ℕ) (xs : List ℚ) :
    ∀ k o, o ∈ pidRun ctrl offset k xs → ∃ j, o = pidOutput (ctrl j) offset := by
  induction xs with
  | nil => intro k o h; simp [pidRun] at h
  | cons x r ih =>
    intro k o h
    rw [pidRun] at h
    rcases List.mem_cons.mp h with h1 | h2
    · exact ⟨k, h1⟩
    · exact ih (k + 1) o h2

/-- Claim C2 (counterexample): the PID stage output is not within
[offset, offset + 100] for every configured offset. With the u32 offset
4294967295 (u32::MAX) and the controller returning (p, i, d) = (-5, 0, 0),
the rectified clamped sum is 5 and the final u32 addition wraps: the stage
outputs 4, far below the offset. -/
theorem pid_output_wraps_at_max_offset :
    pidRun (fun _ => (-5, 0, 0)) 4294967295 0 [7] = [4] ∧
    ¬ ((4294967295 : ℚ) ≤ 4) := by
  constructor
  · have hc : castU32Q 5 = 5 := by
      norm_num [castU32Q, U32MAX]
      decide
    have hpo : pidOutput ((-5, 0, 0) : ℚ × ℚ × ℚ) 4294967295 = 4 := by
      norm_num [pidOutput, hc]
    simp only [pidRun, hpo]
  · norm_num

/-- Claim C2 (amended): for every finite upstream sequence, every behaviour
of the external pid controller (hence every gain configuration) and every
configured offset whose final u32 addition cannot overflow
(offset + 100 < 2^32, in particular every offset up to u32::MAX - 100),
each value output by the PID stage lies within [offset, offset + 100]. For
larger offsets the u32 sum wraps, as the counterexample shows. -/
theorem pid_output_within_offset_range (ctrl : ℕ → ℚ × ℚ × ℚ) (offset : ℕ)
    (xs : List ℚ) (o : ℚ) (hoff : offset + 100 < 4294967296)
    (h : o ∈ pidRun ctrl offset 0 xs) :
    (offset : ℚ) ≤ o ∧ o ≤ offset + 100 := by
  obtain ⟨j, rfl⟩ := pidRun_mem ctrl offset xs 0 o h
  exact pidOutput_bounds (ctrl j) offset hoff

/-- Witness for claim C2 at a concrete input: offset 30, one upstream value,
controller returning (p, i, d) = (-5, -3, 2); the stage outputs 38, which
lies within [30, 130]. -/
theorem pid_output_within_offset_range_witness :
    (30 : ℚ) ≤ 38 ∧ (38 : ℚ) ≤ 30 + 100 := by
  have hmem : (38 : ℚ) ∈ pidRun (fun _ => (-5, -3, 2)) 30 0 [7] := by
    have hc : castU32Q 8 = 8 := by
      norm_num [castU32Q, U32MAX]
      decide
    have hpo : pidOutput ((-5 : ℚ), (-3 : ℚ), (2 : ℚ)) 30 = 38 := by
      norm_num [pidOutput, hc]
    simp [pidRun, hpo]
  have := pid_output_within_offset_range (fun _ => (-5, -3, 2)) 30 [7] 38
    (by norm_num) hmem
  exact_mod_cast this

/-
Fixed-point helpers shared by the Clip and AtLeast stages, which both convert
a float to the integer domain by multiplying by 1000 and casting to u64.
-/

lemma castU64Q_natCast (n : ℕ) (h : n ≤ U64MAX) : castU64Q (n : ℚ) = n := by
  unfold castU64Q
  rw [if_neg (not_lt.mpr (by positivity)), Int.floor_natCast, Int.toNat_natCast]
  exact min_eq_left h

lemma castU64Q_exact (q : ℚ) (h0 : 0 ≤ q) (hd : q.den = 1)
    (hm : q ≤ (U64MAX : ℚ)) : ((castU64Q q : ℕ) : ℚ) = q := by
  have hq : (q.num : ℚ) = q := (Rat.den_eq_one_iff q).mp hd
  have hfl : ⌊q⌋ = q.num := by rw [← hq]; exact Int.floor_intCast _
  have hnum0 : 0 ≤ q.num := Rat.num_nonneg.mpr h0
  have hnumle : q.num ≤ (U64MAX : ℤ) := by
    have : (q.num : ℚ) ≤ ((U64MAX : ℤ) : ℚ) := by rw [hq]; exact_mod_cast hm
    exact_mod_cast this
  unfold castU64Q
  rw [if_neg (not_lt.mpr h0), hfl, min_eq_left (by omega)]
  have h1 : ((q.num.toNat : ℕ) : ℚ) = (q.num : ℚ) := by
    exact_mod_cast Int.toNat_of_nonneg hnum0
  rw [h1, hq]

/-
AtLeast stage (src/operations/mod.rs lines 299-363).

AtLeastParameters.apply scales the configured threshold:
val = (self.val * 1000.) as u64. AtLeast::next scales each upstream value the
same way, zeroes it when it is below the scaled threshold, and divides the
(possibly zeroed) scaled integer by 1000 to produce the output.
-/

/-- AtLeastParameters::apply: the stored scaled threshold (val * 1000.) as
u64. -/
def atLeastApply (t : ℚ) : ℕ := castU64Q (t * 1000)

/-- The body of AtLeast::next on one upstream value (src/operations/mod.rs
lines 319-349). -/
def atLeastOut (valS : ℕ) (x : ℚ) : ℚ :=
  let tmp := castU64Q (x * 1000)
  let tmp2 := if tmp < valS then 0 else tmp
  ((tmp2 : ℕ) : ℚ) / 1000

/-- Claim C4 (counterexample): a value at or above the threshold is not passed
through unchanged. AtLeast(10) maps the input 10.5005 to 10.5: the stage
outputs the input truncated to whole thousandths, not the input itself. -/
theorem atLeast_above_threshold_not_identity :
    atLeastOut (atLeastApply 10) (21001/2000) = 21/2 ∧
    (21/2 : ℚ) ≠ 21001/2000 := by
  constructor
  · have h1 : (21001 : ℚ)/2000 * 1000 = ((10500 : ℕ) : ℚ) + 1/2 := by norm_num
    have h2 : castU64Q ((21001 : ℚ)/2000 * 1000) = 10500 := by
      unfold castU64Q
      rw [h1, if_neg (not_lt.mpr (by positivity))]
      norm_num [U64MAX]
      decide
    have h3 : atLeastApply 10 = 10000 := by
      have : (10 : ℚ) * 1000 = ((10000 : ℕ) : ℚ) := by norm_num
      rw [atLeastApply, this, castU64Q_natCast]
      norm_num [U64MAX]
    rw [atLeastOut, h2, h3]
    norm_num
  · norm_num

/-- Claim C4 (amended): for every threshold t and input x, if the scaled
input (x * 1000.) as u64 is below the scaled threshold (t * 1000.) as u64 the
stage outputs exactly 0.0; otherwise it outputs the scaled input divided by
1000 - the input truncated down to whole thousandths - which equals the input
unchanged exactly when x * 1000 is a non-negative integer not exceeding
u64::MAX. -/
theorem atLeast_threshold_behaviour (t x : ℚ) :
    (castU64Q (x * 1000) < atLeastApply t → atLeastOut (atLeastApply t) x = 0) ∧
    (atLeastApply t ≤ castU64Q (x * 1000) →
      atLeastOut (atLeastApply t) x = ((castU64Q (x * 1000) : ℕ) : ℚ) / 1000) ∧
    (atLeastApply t ≤ castU64Q (x * 1000) → 0 ≤ x → (x * 1000).den = 1 →
      x * 1000 ≤ (U64MAX : ℚ) → atLeastOut (atLeastApply t) x = x) := by
  refine ⟨fun hlt => ?_, fun hge => ?_, fun hge h0 hd hm => ?_⟩
  · rw [atLeastOut, if_pos hlt]
    norm_num
  · rw [atLeastOut, if_neg (not_lt.mpr hge)]
  · rw [atLeastOut, if_neg (not_lt.mpr hge)]
    rw [castU64Q_exact (x * 1000) (by positivity) hd hm]
    field_simp

lemma atLeastApply_ten : atLeastApply 10 = 10000 := by
  have h : (10 : ℚ) * 1000 = ((10000 : ℕ) : ℚ) := by norm_num
  rw [atLeastApply, h, castU64Q_natCast]
  norm_num [U64MAX]

/-- Witness for claim C4 at a concrete input: AtLeast(10) on the input 10.5,
whose scaled value 10500 is at or above the scaled threshold 10000 and is an
exact multiple of a thousandth, is passed through unchanged. -/
theorem atLeast_threshold_behaviour_witness :
    atLeastOut (atLeastApply 10) (21/2) = 21/2 := by
  have e1 : (21/2 : ℚ) * 1000 = ((10500 : ℕ) : ℚ) := by norm_num
  have e2 : castU64Q ((21/2 : ℚ) * 1000) = 10500 := by
    rw [e1, castU64Q_natCast]
    norm_num [U64MAX]
  refine (atLeast_threshold_behaviour 10 (21/2)).2.2 ?_ (by norm_num) ?_ ?_
  · rw [e2, atLeastApply_ten]
    norm_num
  · rw [e1]
    exact Rat.den_natCast 10500
  · rw [e1]
    norm_num [U64MAX]

/-
Clip stage (src/operations/mod.rs lines 228-297).

ClipParameters.apply scales both bounds: max = (self.max * 1000.) as u64 and
min = (self.min * 1000.) as u64. Clip::next scales each upstream value the
same way, clamps the scaled integer first at the scaled max and then at the
scaled min, and divides by 1000 to produce the output.
-/

/-- ClipParameters::apply for the minimum bound: (min * 1000.) as u64. -/
def clipApplyMin (mn : ℚ) : ℕ := castU64Q (mn * 1000)

/-- ClipParameters::apply for the maximum bound: (max * 1000.) as u64. -/
def clipApplyMax (mx : ℚ) : ℕ := castU64Q (mx * 1000)

/-- The body of Clip::next on one upstream value (src/operations/mod.rs
lines 249-282): clamp the scaled value at the scaled max, then at the scaled
min, then divide by 1000. -/
def clipOut (minS maxS : ℕ) (x : ℚ) : ℚ :=
  let tmp := castU64Q (x * 1000)
  let tmp1 := if maxS < tmp then maxS else tmp
  let tmp2 := if tmp1 < minS then minS else tmp1
  ((tmp2 : ℕ) : ℚ) / 1000

lemma clipOut_scaled_bounds (minS maxS t : ℕ) (hmm : minS ≤ maxS) :
    minS ≤ (if (if maxS < t then maxS else t) < minS
      then minS else if maxS < t then maxS else t) ∧
    (if (if maxS < t then maxS else t) < minS
      then minS else if maxS < t then maxS else t) ≤ maxS := by
  constructor <;> split_ifs <;> omega

/-- Claim C6 (counterexample): the output of Clip(min, max) does not always
lie within [min, max]. With min = 0.0005 the scaled minimum truncates to 0,
so Clip(0.0005, 100) maps the input 0.0 to 0.0, which is strictly below min. -/
theorem clip_output_can_undershoot_min :
    clipOut (clipApplyMin (1/2000)) (clipApplyMax 100) 0 = 0 ∧
    ¬ ((1/2000 : ℚ) ≤ clipOut (clipApplyMin (1/2000)) (clipApplyMax 100) 0) := by
  have hmin : clipApplyMin (1/2000) = 0 := by
    rw [clipApplyMin]
    norm_num [castU64Q, U64MAX]
  have hmax : clipApplyMax 100 = 100000 := by
    have h : (100 : ℚ) * 1000 = ((100000 : ℕ) : ℚ) := by norm_num
    rw [clipApplyMax, h, castU64Q_natCast]
    norm_num [U64MAX]
  have hx : castU64Q ((0 : ℚ) * 1000) = 0 := by norm_num [castU64Q]
  constructor
  · rw [clipOut, hmin, hmax, hx]
    norm_num
  · rw [clipOut, hmin, hmax, hx]
    norm_num

lemma clipOut_eq (minS maxS : ℕ) (x : ℚ) :
    clipOut minS maxS x =
      (((if (if maxS < castU64Q (x * 1000) then maxS else castU64Q (x * 1000)) < minS
        then minS
        else if maxS < castU64Q (x * 1000) then maxS else castU64Q (x * 1000)) : ℕ) : ℚ)
        / 1000 := rfl

/-- Claim C6 (amended): whenever the configured bounds are exact multiples of
a thousandth - min * 1000 and max * 1000 non-negative integers with min ≤ max
and max * 1000 within u64 range - every output of Clip(min, max) lies within
[min, max], for any input whatsoever. (For fractional bounds the scaled
bounds truncate and the output can undershoot min by less than a thousandth,
as the counterexample shows.) In particular Clip(30, 100) maps 29.999 to 30.0
and 100.001 to 100.0. -/
theorem clip_output_within_bounds (mn mx x : ℚ) (h0 : 0 ≤ mn) (hle : mn ≤ mx)
    (hdn : (mn * 1000).den = 1) (hdx : (mx * 1000).den = 1)
    (hmx : mx * 1000 ≤ (U64MAX : ℚ)) :
    mn ≤ clipOut (clipApplyMin mn) (clipApplyMax mx) x ∧
    clipOut (clipApplyMin mn) (clipApplyMax mx) x ≤ mx := by
  have h0x : (0 : ℚ) ≤ mx := le_trans h0 hle
  have hmn_le : mn * 1000 ≤ (U64MAX : ℚ) :=
    le_trans (mul_le_mul_of_nonneg_right hle (by norm_num)) hmx
  have ha : ((clipApplyMin mn : ℕ) : ℚ) = mn * 1000 :=
    castU64Q_exact _ (by positivity) hdn hmn_le
  have hb : ((clipApplyMax mx : ℕ) : ℚ) = mx * 1000 :=
    castU64Q_exact _ (by positivity) hdx hmx
  have hab : clipApplyMin mn ≤ clipApplyMax mx := by
    have h : ((clipApplyMin mn : ℕ) : ℚ) ≤ ((clipApplyMax mx : ℕ) : ℚ) := by
      rw [ha, hb]
      exact mul_le_mul_of_nonneg_right hle (by norm_num)
    exact_mod_cast h
  obtain ⟨hl, hr⟩ :=
    clipOut_scaled_bounds (clipApplyMin mn) (clipApplyMax mx) (castU64Q (x * 1000)) hab
  rw [clipOut_eq]
  constructor
  · rw [le_div_iff₀ (by norm_num : (0 : ℚ) < 1000)]
    calc mn * 1000 = ((clipApplyMin mn : ℕ) : ℚ) := ha.symm
      _ ≤ _ := by exact_mod_cast hl
  · rw [div_le_iff₀ (by norm_num : (0 : ℚ) < 1000)]
    calc ((_ : ℕ) : ℚ) ≤ ((clipApplyMax mx : ℕ) : ℚ) := by exact_mod_cast hr
      _ = mx * 1000 := hb

lemma clipApplyMin_thirty : clipApplyMin 30 = 30000 := by
  have h : (30 : ℚ) * 1000 = ((30000 : ℕ) : ℚ) := by norm_num
  rw [clipApplyMin, h, castU64Q_natCast]
  norm_num [U64MAX]

lemma clipApplyMax_hundred : clipApplyMax 100 = 100000 := by
  have h : (100 : ℚ) * 1000 = ((100000 : ℕ) : ℚ) := by norm_num
  rw [clipApplyMax, h, castU64Q_natCast]
  norm_num [U64MAX]

/-- Witness for claim C6 at the spec's concrete scenario: Clip(30, 100) keeps
its output within [30, 100] on the input 29.999, maps 29.999 to exactly 30.0,
and maps 100.001 to exactly 100.0. -/
theorem clip_output_within_bounds_witness :
    ((30 : ℚ) ≤ clipOut (clipApplyMin 30) (clipApplyMax 100) 29.999 ∧
      clipOut (clipApplyMin 30) (clipApplyMax 100) 29.999 ≤ 100) ∧
    clipOut (clipApplyMin 30) (clipApplyMax 100) 29.999 = 30 ∧
    clipOut (clipApplyMin 30) (clipApplyMax 100) 100.001 = 100 := by
  have e1 : (29.999 : ℚ) * 1000 = ((29999 : ℕ) : ℚ) := by norm_num
  have c1 : castU64Q ((29.999 : ℚ) * 1000) = 29999 := by
    rw [e1, castU64Q_natCast]
    norm_num [U64MAX]
  have e2 : (100.001 : ℚ) * 1000 = ((100001 : ℕ) : ℚ) := by norm_num
  have c2 : castU64Q ((100.001 : ℚ) * 1000) = 100001 := by
    rw [e2, castU64Q_natCast]
    norm_num [U64MAX]
  refine ⟨?_, ?_, ?_⟩
  · refine clip_output_within_bounds 30 100 29.999 (by norm_num) (by norm_num) ?_ ?_ ?_
    · rw [show (30 : ℚ) * 1000 = ((30000 : ℕ) : ℚ) by norm_num]
      exact Rat.den_natCast 30000
    · rw [show (100 : ℚ) * 1000 = ((100000 : ℕ) : ℚ) by norm_num]
      exact Rat.den_natCast 100000
    · norm_num [U64MAX]
  · rw [clipOut_eq, c1, clipApplyMin_thirty, clipApplyMax_hundred]
    norm_num
  · rw [clipOut_eq, c2, clipApplyMin_thirty, clipApplyMax_hundred]
    norm_num

/-
DampenedOscillator stage (src/operations/mod.rs lines 141-226).

DampenedOscillatorParameters.apply constructs the state with target and pos
initialised to 100.0, vel and acc to 0.0, and the damping coefficient
c = 2 * sqrt(k * m) (critical damping). Since the square root is irrational
in general, c is kept as an explicit parameter of the model: every theorem
below holds for all values of c, and in particular for 2 * sqrt(k * m).
-/

/-- The mutable state of the DampenedOscillator stage. -/
structure OscState where
  m : ℚ
  k : ℚ
  dt : ℚ
  target : ℚ
  c : ℚ
  pos : ℚ
  vel : ℚ
  acc : ℚ
deriving Repr, DecidableEq

/-- DampenedOscillatorParameters::apply (src/operations/mod.rs lines
211-226) with the critical damping coefficient 2 * sqrt(k * m) supplied as
the parameter c: target and pos start at 100.0, vel and acc at 0.0. -/
def mkOsc (m k dt c : ℚ) : OscState :=
  { m := m, k := k, dt := dt, target := 100, c := c, pos := 100, vel := 0, acc := 0 }

/-- The body of DampenedOscillator::next on one upstream value
(src/operations/mod.rs lines 168-204): set the target to the value, do one
semi-implicit integration step, and output the new position. -/
def oscStep (s : OscState) (val : ℚ) : ℚ × OscState :=
  let target := val
  let acc := -1 * s.k * (s.pos - target) - s.c * s.vel
  let newPos := s.pos + s.dt * s.vel + 1/2 * s.dt * s.dt * s.acc
  let fac := s.dt / (2 * s.m)
  let newVel := 1 / (1 + s.c * fac) * (s.vel * (1 - s.c * fac) + fac * (s.acc - acc))
  (newPos, { s with target := target, acc := acc, vel := newVel, pos := newPos })

/-- The DampenedOscillator stage run over a finite upstream sequence. -/
def oscRun (s : OscState) : List ℚ → List ℚ
  | [] => []
  | v :: r =>
    let p := oscStep s v
    p.1 :: oscRun p.2 r

lemma oscStep_equilibrium (m k dt c : ℚ) :
    oscStep (mkOsc m k dt c) 100 = (100, mkOsc m k dt c) := by
  unfold oscStep mkOsc
  norm_num

/-- Claim C8: a DampenedOscillator stage driven by a constant upstream equal
to its initial position 100.0 outputs that same position on every tick: the
equilibrium state (position equal to target, velocity and acceleration zero)
is a fixed point of the integration step. This holds for every spring
constant, every positive mass, non-negative time step and non-negative
damping coefficient (the hypotheses under which the float computation
performs no division by zero, so that exact arithmetic and f64 agree), hence
in particular for the critical damping 2 * sqrt(k * m) that apply computes. -/
theorem oscillator_equilibrium_fixed_point (m k dt c : ℚ) (_hm : 0 < m)
    (_hdt : 0 ≤ dt) (_hc : 0 ≤ c) (j : ℕ) :
    oscRun (mkOsc m k dt c) (List.replicate j 100) = List.replicate j 100 := by
  induction j with
  | zero => rfl
  | succ n ih =>
    rw [List.replicate_succ, oscRun, oscStep_equilibrium]
    exact congrArg _ ih

/-- Witness for claim C8 at a concrete input: mass 1, spring constant 1,
time step 1/2 and damping coefficient 2 = 2 * sqrt(1 * 1) (exactly the
critical damping apply computes here); three ticks at target 100 output
100 three times. -/
theorem oscillator_equilibrium_fixed_point_witness :
    oscRun (mkOsc 1 1 (1/2) 2) (List.replicate 3 100) = List.replicate 3 100 :=
  oscillator_equilibrium_fixed_point 1 1 (1/2) 2 (by norm_num) (by norm_num)
    (by norm_num) 3

/-
Average stage (src/operations/mod.rs lines 500-583).

AverageParameters.apply initialises the state with the configured window size
n, index 0 and an empty buffer. Average::next pushes the new value while the
buffer holds fewer than n values, and otherwise overwrites the buffer slot at
index (advancing index by 1 mod n); in both cases it outputs the mean of the
buffer, recomputed by full summation. Writing to prev_vals[index] with index
out of bounds is a Rust panic, modelled by the error case.
-/

/-- The mutable state of the Average stage: window size, circular index and
the buffer of previous values. -/
structure AvgState where
  n : ℕ
  index : ℕ
  prev_vals : List ℚ
deriving Repr, DecidableEq

/-- AverageParameters::apply (src/operations/mod.rs lines 574-582). -/
def avgApply (n : ℕ) : AvgState := ⟨n, 0, []⟩

/-- The body of Average::next on one upstream value (src/operations/mod.rs
lines 523-563). The third branch is the index-out-of-bounds panic raised by
prev_vals[index] = val. -/
def avgStep (s : AvgState) (val : ℚ) : Except Unit (ℚ × AvgState) :=
  if s.prev_vals.length < s.n then
    let pv := s.prev_vals ++ [val]
    .ok (pv.sum / (pv.length : ℚ), ⟨s.n, s.index, pv⟩)
  else if s.index < s.prev_vals.length then
    let pv := s.prev_vals.set s.index val
    .ok (pv.sum / (pv.length : ℚ), ⟨s.n, (s.index + 1) % s.n, pv⟩)
  else
    .error ()

/-- The Average stage run over a finite upstream sequence, propagating a
panic. -/
def avgRun (s : AvgState) : List ℚ → Except Unit (List ℚ)
  | [] => .ok []
  | v :: r =>
    match avgStep s v with
    | .error e => .error e
    | .ok p =>
      match avgRun p.2 r with
      | .error e => .error e
      | .ok os => .ok (p.1 :: os)

/-- The whole Average stage: state initialised by apply, run on the input. -/
def avgOutputs (n : ℕ) (xs : List ℚ) : Except Unit (List ℚ) :=
  avgRun (avgApply n) xs

/-- Specification-side definition: the k-th output is the arithmetic mean of
the last min (k+1) n input values, that is of the window that remains after
the oldest values have been overwritten. -/
def windowMeans (n : ℕ) (xs : List ℚ) : List ℚ :=
  (List.range xs.length).map fun k =>
    ((xs.take (k + 1)).drop (k + 1 - n)).sum / ((min (k + 1) n : ℕ) : ℚ)

lemma sum_rotate_eq (l : List ℚ) (i : ℕ) : (l.rotate i).sum = l.sum := by
  by_cases h : l = []
  · subst h; simp
  · have hl : 0 < l.length := List.length_pos.mpr h
    rw [← List.rotate_mod, List.rotate_eq_drop_append_take (le_of_lt (Nat.mod_lt _ hl))]
    rw [List.sum_append, add_comm, ← List.sum_append, List.take_append_drop]

lemma set_rotate_succ (l : List ℚ) (r : ℕ) (v : ℚ) (h : r < l.length) :
    (l.set r v).rotate ((r + 1) % l.length) = (l.rotate r).drop 1 ++ [v] := by
  have hset : l.set r v = (l.take r ++ [v]) ++ l.drop (r + 1) := by
    rw [List.set_eq_take_cons_drop v h]
    simp
  have hlenA : (l.take r ++ [v]).length = r + 1 := by
    simp [List.length_take]
    omega
  have hrot : l.rotate r = l.drop r ++ l.take r :=
    List.rotate_eq_drop_append_take (le_of_lt h)
  have hdroplen : 0 < (l.drop r).length := by
    rw [List.length_drop]
    omega
  have hrhs : (l.rotate r).drop 1 ++ [v] = (l.drop (r + 1) ++ l.take r) ++ [v] := by
    rw [hrot, List.drop_append_eq_append_drop]
    have h1 : (1 : ℕ) - (l.drop r).length = 0 := by omega
    rw [h1, List.drop_zero, List.drop_drop]
  by_cases hr : r + 1 = l.length
  · have hmod : (r + 1) % l.length = 0 := by rw [← hr]; exact Nat.mod_self _
    have hdropnil : l.drop (r + 1) = [] := List.drop_eq_nil_of_le (by omega)
    rw [hmod, List.rotate_zero, hset, hrhs, hdropnil]
    simp
  · have hlt : r + 1 < l.length := lt_of_le_of_ne h hr
    have hmod : (r + 1) % l.length = r + 1 := Nat.mod_eq_of_lt hlt
    rw [hmod]
    have hle : r + 1 ≤ (l.set r v).length := by rw [List.length_set]; omega
    rw [List.rotate_eq_drop_append_take hle, hset,
      List.drop_left' hlenA, List.take_left' hlenA, hrhs]
    simp

lemma avgRun_windows (n : ℕ) (hn : 0 < n) (rest : List ℚ) :
    ∀ (pref : List ℚ) (s : AvgState),
    s.n = n →
    s.prev_vals.length = min pref.length n →
    s.index = (pref.length - n) % n →
    s.prev_vals.rotate s.index = pref.drop (pref.length - n) →
    avgRun s rest = .ok ((List.range rest.length).map fun k =>
      (((pref ++ rest).take (pref.length + k + 1)).drop (pref.length + k + 1 - n)).sum /
        ((min (pref.length + k + 1) n : ℕ) : ℚ)) := by
  induction rest with
  | nil => intro pref s _ _ _ _; rfl
  | cons v r ih =>
    intro pref s hsn hlen hidx hrot
    have happ : pref ++ v :: r = (pref ++ [v]) ++ r := by simp
    have hlen1 : (pref ++ [v]).length = pref.length + 1 := by simp
    by_cases hfill : pref.length < n
    · -- filling phase: the buffer holds the whole of pref and v is pushed
      have hmin : min pref.length n = pref.length := by omega
      have hlt : s.prev_vals.length < s.n := by rw [hsn, hlen, hmin]; omega
      have hsub : pref.length - n = 0 := by omega
      have hidx0 : s.index = 0 := by rw [hidx, hsub, Nat.zero_mod]
      have hprev : s.prev_vals = pref := by
        have h := hrot
        rw [hidx0, List.rotate_zero, hsub, List.drop_zero] at h
        exact h
      have hstep : avgStep s v =
          .ok ((pref ++ [v]).sum / (((pref ++ [v]).length : ℕ) : ℚ),
            ⟨s.n, s.index, pref ++ [v]⟩) := by
        rw [avgStep, if_pos hlt, hprev]
      have hihres := ih (pref ++ [v]) ⟨s.n, s.index, pref ++ [v]⟩ hsn
        (by simp only [hlen1]; simp; omega)
        (by
          have hz : (pref ++ [v]).length - n = 0 := by rw [hlen1]; omega
          simp only [hz, Nat.zero_mod]
          exact hidx0)
        (by
          have hz : (pref ++ [v]).length - n = 0 := by rw [hlen1]; omega
          simp only [hidx0, List.rotate_zero, hz, List.drop_zero])
      rw [avgRun]
      simp only [hstep, hihres]
      rw [List.length_cons, List.range_succ_eq_map, List.map_cons, List.map_map]
      congr 1
      congr 1
      · rw [happ, Nat.add_zero, ← hlen1, List.take_left, hlen1]
        have h2 : pref.length + 1 - n = 0 := by omega
        have h3 : min (pref.length + 1) n = pref.length + 1 := by omega
        rw [h2, List.drop_zero, h3]
      · apply List.map_congr_left
        intro k _
        simp only [Function.comp_apply, Nat.succ_eq_add_one, happ, hlen1]
        have h4 : pref.length + (k + 1) + 1 = pref.length + 1 + k + 1 := by omega
        rw [h4]
    · -- full phase: the slot at index is overwritten
      push_neg at hfill
      have hmin : min pref.length n = n := by omega
      have hlenn : s.prev_vals.length = n := by rw [hlen, hmin]
      have hnotlt : ¬ s.prev_vals.length < s.n := by rw [hsn, hlenn]; omega
      have hidxlt : s.index < s.prev_vals.length := by
        rw [hidx, hlenn]
        exact Nat.mod_lt _ hn
      have hstep : avgStep s v =
          .ok ((s.prev_vals.set s.index v).sum /
              (((s.prev_vals.set s.index v).length : ℕ) : ℚ),
            ⟨s.n, (s.index + 1) % s.n, s.prev_vals.set s.index v⟩) := by
        rw [avgStep, if_neg hnotlt, if_pos hidxlt]
      have hsetlen : (s.prev_vals.set s.index v).length = n := by
        rw [List.length_set, hlenn]
      have hmodidx : (s.index + 1) % n = ((pref ++ [v]).length - n) % n := by
        rw [hidx, hlen1]
        have h1 : (pref.length - n) % n + 1 ≡ pref.length - n + 1 [MOD n] :=
          (Nat.mod_modEq (pref.length - n) n).add_right 1
        have h2 : pref.length - n + 1 = pref.length + 1 - n := by omega
        rw [← h2]
        exact h1
      have hrot' : (s.prev_vals.set s.index v).rotate ((s.index + 1) % s.n) =
          (pref ++ [v]).drop ((pref ++ [v]).length - n) := by
        have hmodarg : (s.index + 1) % s.n = (s.index + 1) % s.prev_vals.length := by
          rw [hsn, hlenn]
        rw [hmodarg, set_rotate_succ _ _ _ hidxlt, hrot, List.drop_drop]
        have h1 : (pref ++ [v]).length - n = pref.length - n + 1 := by
          rw [hlen1]; omega
        rw [h1, List.drop_append_eq_append_drop]
        have h3 : pref.length - n + 1 - pref.length = 0 := by omega
        rw [h3, List.drop_zero]
      have hihres := ih (pref ++ [v])
        ⟨s.n, (s.index + 1) % s.n, s.prev_vals.set s.index v⟩ hsn
        (by simp only [hsetlen, hlen1]; simp; omega)
        (by simp only [hsn, hmodidx])
        hrot'
      rw [avgRun]
      simp only [hstep, hihres]
      rw [List.length_cons, List.range_succ_eq_map, List.map_cons, List.map_map]
      congr 1
      congr 1
      · have hsum : (s.prev_vals.set s.index v).sum =
            ((pref ++ [v]).drop ((pref ++ [v]).length - n)).sum := by
          rw [← hrot']
          exact (sum_rotate_eq _ _).symm
        rw [happ, Nat.add_zero, ← hlen1, List.take_left, hsum, hsetlen, hlen1]
        have h3 : min (pref.length + 1) n = n := by omega
        rw [h3]
      · apply List.map_congr_left
        intro k _
        simp only [Function.comp_apply, Nat.succ_eq_add_one, happ, hlen1]
        have h4 : pref.length + (k + 1) + 1 = pref.length + 1 + k + 1 := by omega
        rw [h4]

/-- Claim C5: for every positive window size n and every input sequence, the
Average stage outputs, while fewer than n samples have been seen, the
arithmetic mean of all samples seen so far, and once n samples have been seen
overwrites the oldest stored sample (the circular index advancing by 1 mod n)
and outputs the mean of the full n-window: the k-th output is the mean of the
last min (k+1) n inputs. -/
theorem average_sliding_window_means (n : ℕ) (xs : List ℚ) (hn : 0 < n) :
    avgOutputs n xs = .ok (windowMeans n xs) := by
  have h := avgRun_windows n hn xs [] (avgApply n) rfl (by simp [avgApply])
    (by simp [avgApply]) (by simp [avgApply])
  rw [avgOutputs, h, windowMeans]
  congr 1
  apply List.map_congr_left
  intro k _
  simp

/-- Witness for claim C5 at the spec's concrete scenario: Average(3) fed
[10, 20, 30, 40] yields [10, 15, 20, 30] - partial means while filling, then
the overwritten ring mean. -/
theorem average_sliding_window_means_witness :
    (0 : ℕ) < 3 ∧ avgOutputs 3 [10, 20, 30, 40] = .ok [10, 15, 20, 30] := by
  refine ⟨by norm_num, ?_⟩
  rw [average_sliding_window_means 3 [10, 20, 30, 40] (by norm_num)]
  congr 1
  norm_num [windowMeans, List.range_succ]

/-- Claim C10: an Average stage constructed with window size n = 0 and a
non-empty upstream panics on the first pull: the buffer length 0 is not below
n = 0, so the full-window branch runs and prev_vals[0] indexes a zero-length
vector. The model returns the error value rather than a value or graceful
termination. -/
theorem average_zero_window_panics (v : ℚ) (rest : List ℚ) :
    avgOutputs 0 (v :: rest) = .error () := by
  have h : avgStep (avgApply 0) v = .error () := by
    rw [avgStep]
    norm_num [avgApply]
  rw [avgOutputs, avgRun]
  simp only [h]

/-
Fused upstream iterators. Every stage stores its upstream as Fuse<I>
(iter.fuse() in every apply): once the inner iterator has returned None, the
fuse flag is set and the inner iterator is never polled again. The model
keeps the remaining values of the upstream, the fuse flag, and a ghost
counter of how many times the inner iterator has actually been polled (the
counter is instrumentation used to state the fusing property; it does not
influence any value). -/
structure FIter where
  rem : List ℚ
  done : Bool
  polls : ℕ
deriving Repr, DecidableEq

/-- A freshly fused upstream over a finite sequence. -/
def mkFIter (xs : List ℚ) : FIter := ⟨xs, false, 0⟩

/-- One pull on a fused upstream: when the fuse flag is set the inner
iterator is not polled and None is returned; otherwise the inner iterator is
polled and the flag is set on exhaustion. -/
def fnext (it : FIter) : Option ℚ × FIter :=
  if it.done then (none, it)
  else match it.rem with
    | [] => (none, ⟨[], true, it.polls + 1⟩)
    | v :: r => (some v, ⟨r, false, it.polls + 1⟩)

/-
Supersample stage (src/operations/mod.rs lines 365-442).

SupersampleParameters.apply initialises count to 1 and last_val to None.
Supersample::next returns the stored value while last_val is present and
count < n (incrementing count); otherwise it pulls upstream, stores the new
value with count reset to 1, or stops when the upstream is exhausted.
-/

/-- The state of the Supersample stage together with its fused upstream. -/
structure SSState where
  n : ℕ
  count : ℕ
  last_val : Option ℚ
  iter : FIter
deriving Repr, DecidableEq

/-- SupersampleParameters::apply over an upstream sequence
(src/operations/mod.rs lines 433-441). -/
def ssApply (n : ℕ) (xs : List ℚ) : SSState := ⟨n, 1, none, mkFIter xs⟩

/-- The body of Supersample::next (src/operations/mod.rs lines 387-426). -/
def ssNext (s : SSState) : Option ℚ × SSState :=
  if s.last_val.isSome ∧ s.count < s.n then
    (s.last_val, ⟨s.n, s.count + 1, s.last_val, s.iter⟩)
  else
    match fnext s.iter with
    | (some v, it') => (some v, ⟨s.n, 1, some v, it'⟩)
    | (none, it') => (none, ⟨s.n, s.count, s.last_val, it'⟩)

/-- Pull the Supersample stage at most fuel times, collecting outputs until
the stage first returns nothing. -/
def ssDrain : ℕ → SSState → List ℚ
  | 0, _ => []
  | fuel + 1, s =>
    match ssNext s with
    | (none, _) => []
    | (some v, s') => v :: ssDrain fuel s'

lemma ssDrain_repeat (n : ℕ) (a : ℚ) (it : FIter) :
    ∀ (j fuel count : ℕ), count ≤ n → j = n - count → j ≤ fuel →
    ssDrain fuel ⟨n, count, some a, it⟩ =
      List.replicate j a ++ ssDrain (fuel - j) ⟨n, n, some a, it⟩ := by
  intro j
  induction j with
  | zero =>
    intro fuel count hcn hj _
    have hc : count = n := by omega
    rw [hc]
    simp
  | succ m ih =>
    intro fuel count hcn hj hfuel
    have hclt : count < n := by omega
    obtain ⟨f, rfl⟩ : ∃ f, fuel = f + 1 := ⟨fuel - 1, by omega⟩
    have hnext : ssNext ⟨n, count, some a, it⟩ = (some a, ⟨n, count + 1, some a, it⟩) := by
      rw [ssNext, if_pos ⟨rfl, hclt⟩]
    have hdrain : ssDrain (f + 1) ⟨n, count, some a, it⟩ =
        a :: ssDrain f ⟨n, count + 1, some a, it⟩ := by
      rw [ssDrain, hnext]
    have hm1 : count + 1 ≤ n := hclt
    have hm2 : m = n - (count + 1) := by omega
    have hm3 : m ≤ f := by omega
    rw [hdrain, ih f (count + 1) hm1 hm2 hm3]
    rw [List.replicate_succ, List.cons_append]
    have harg : f + 1 - (m + 1) = f - m := by omega
    rw [harg]

lemma ssDrain_pulls (n : ℕ) (hn : 1 ≤ n) :
    ∀ (xs : List ℚ) (fuel count p : ℕ) (a : Option ℚ),
    ¬ (a.isSome ∧ count < n) → n * xs.length ≤ fuel →
    ssDrain fuel ⟨n, count, a, ⟨xs, false, p⟩⟩ = xs.flatMap (List.replicate n) := by
  intro xs
  induction xs with
  | nil =>
    intro fuel count p a hcond _
    match fuel with
    | 0 => rfl
    | f + 1 =>
      have hnext : ssNext ⟨n, count, a, ⟨[], false, p⟩⟩ =
          (none, ⟨n, count, a, ⟨[], true, p + 1⟩⟩) := by
        rw [ssNext, if_neg hcond, fnext]
        rfl
      rw [ssDrain, hnext]
      rfl
  | cons v rest ih =>
    intro fuel count p a hcond hfuel
    have hlen : n * (v :: rest).length = n * rest.length + n := by
      rw [List.length_cons]
      ring
    obtain ⟨f, rfl⟩ : ∃ f, fuel = f + 1 := ⟨fuel - 1, by omega⟩
    have hnext : ssNext ⟨n, count, a, ⟨v :: rest, false, p⟩⟩ =
        (some v, ⟨n, 1, some v, ⟨rest, false, p + 1⟩⟩) := by
      rw [ssNext, if_neg hcond, fnext]
      rfl
    have hdrain : ssDrain (f + 1) ⟨n, count, a, ⟨v :: rest, false, p⟩⟩ =
        v :: ssDrain f ⟨n, 1, some v, ⟨rest, false, p + 1⟩⟩ := by
      rw [ssDrain, hnext]
    rw [hdrain,
      ssDrain_repeat n v ⟨rest, false, p + 1⟩ (n - 1) f 1 (by omega) rfl (by omega),
      ih (f - (n - 1)) n (p + 1) (some v) (by simp) (by omega),
      List.flatMap_cons]
    have hrep : v :: List.replicate (n - 1) v = List.replicate n v := by
      rw [← List.replicate_succ]
      congr 1
      omega
    rw [← List.cons_append, hrep]

/-- Claim C7 (counterexample): Supersample(0) does not emit each upstream
value zero times; it emits each upstream value once. Three pulls on
Supersample(0) over the upstream [1, 2] yield [1, 2], not the empty output
the claim would require for n = 0. -/
theorem supersample_zero_emits_once :
    ssDrain 3 (ssApply 0 [1, 2]) = [1, 2] ∧
    ssDrain 3 (ssApply 0 [1, 2]) ≠ [1, 2].flatMap (List.replicate 0) := by
  have h1 : ssDrain 3 (ssApply 0 [1, 2]) = [1, 2] := rfl
  have h2 : ([1, 2] : List ℚ).flatMap (List.replicate 0) = [] := rfl
  refine ⟨h1, ?_⟩
  rw [h1, h2]
  exact List.cons_ne_nil 1 [2]

/-- Claim C7 (amended): for every n at least 1 and every upstream sequence
[a, b, c, ...], the Supersample(n) stage emits a repeated n times, then b
repeated n times, and so on: with enough pulls the collected output is
exactly the input with every element replicated n times, and each upstream
value is emitted n times before the next upstream pull occurs. (For n = 0
the stage behaves like n = 1, emitting each value once.) -/
theorem supersample_replicates (n : ℕ) (xs : List ℚ) (fuel : ℕ) (hn : 1 ≤ n)
    (hfuel : n * xs.length ≤ fuel) :
    ssDrain fuel (ssApply n xs) = xs.flatMap (List.replicate n) :=
  ssDrain_pulls n hn xs fuel 1 0 none (by simp) hfuel

/-- Witness for claim C7 at a concrete input: Supersample(2) over the
upstream [5, 7], drained with 4 pulls, emits [5, 5, 7, 7]. -/
theorem supersample_replicates_witness :
    ssDrain 4 (ssApply 2 [5, 7]) = [5, 5, 7, 7] := by
  rw [supersample_replicates 2 [5, 7] 4 (by norm_num) (by norm_num)]
  rfl

/-
The eight stage kinds as one sum, each variant holding its own state and its
fused upstream, with one step function nextStage (the Iterator::next of the
corresponding struct in src/operations/mod.rs). The PID control oracle and
its call counter stand for the external pid crate state, as in pidRun.
-/

/-- Discard n upstream values in sequence, as the for loop of
Subsample::next does (src/operations/mod.rs lines 465-467). -/
def discardN : ℕ → FIter → FIter
  | 0, it => it
  | k + 1, it => discardN k (fnext it).2

/-- One pipeline stage: the variant of OperationParameters it was built from,
its mutable state, and its fused upstream. -/
inductive Stage where
  | identity (it : FIter)
  | pid (ctrl : ℕ → ℚ × ℚ × ℚ) (calls : ℕ) (offset : ℕ) (it : FIter)
  | dampenedOscillator (s : OscState) (it : FIter)
  | clip (minS maxS : ℕ) (it : FIter)
  | atLeast (valS : ℕ) (it : FIter)
  | supersample (s : SSState)
  | subsample (n : ℕ) (it : FIter)
  | average (s : AvgState) (it : FIter)

/-- One pull on a stage: the Iterator::next implementations of
src/operations/mod.rs, with a Rust panic surfacing as the error case. -/
def nextStage : Stage → Except Unit (Option ℚ × Stage)
  | .identity it =>
    let p := fnext it
    .ok (p.1, .identity p.2)
  | .pid ctrl calls offset it =>
    match fnext it with
    | (none, it') => .ok (none, .pid ctrl calls offset it')
    | (some _, it') =>
      .ok (some (pidOutput (ctrl calls) offset), .pid ctrl (calls + 1) offset it')
  | .dampenedOscillator s it =>
    match fnext it with
    | (none, it') => .ok (none, .dampenedOscillator s it')
    | (some v, it') =>
      let p := oscStep s v
      .ok (some p.1, .dampenedOscillator p.2 it')
  | .clip minS maxS it =>
    match fnext it with
    | (none, it') => .ok (none, .clip minS maxS it')
    | (some v, it') => .ok (some (clipOut minS maxS v), .clip minS maxS it')
  | .atLeast valS it =>
    match fnext it with
    | (none, it') => .ok (none, .atLeast valS it')
    | (some v, it') => .ok (some (atLeastOut valS v), .atLeast valS it')
  | .supersample s =>
    let p := ssNext s
    .ok (p.1, .supersample p.2)
  | .subsample n it =>
    let p := fnext (discardN n it)
    .ok (p.1, .subsample n p.2)
  | .average s it =>
    match fnext it with
    | (none, it') => .ok (none, .average s it')
    | (some v, it') =>
      match avgStep s v with
      | .error e => .error e
      | .ok q => .ok (some q.1, .average q.2 it')

/-- The ghost poll counter of a stage's upstream. -/
def Stage.upstreamPolls : Stage → ℕ
  | .identity it => it.polls
  | .pid _ _ _ it => it.polls
  | .dampenedOscillator _ it => it.polls
  | .clip _ _ it => it.polls
  | .atLeast _ it => it.polls
  | .supersample s => s.iter.polls
  | .subsample _ it => it.polls
  | .average _ it => it.polls

/-- Advance a stage by one pull, keeping the state on a panic. -/
def stepStage (s : Stage) : Stage :=
  match nextStage s with
  | .error _ => s
  | .ok p => p.2

/-- Advance a stage by k pulls. -/
def iterStage : ℕ → Stage → Stage
  | 0, s => s
  | k + 1, s => iterStage k (stepStage s)

lemma fnext_none (it it' : FIter) (h : fnext it = (none, it')) :
    it'.done = true ∧ fnext it' = (none, it') := by
  rw [fnext] at h
  by_cases hd : it.done
  · rw [if_pos hd] at h
    injection h with h1 h2
    subst h2
    exact ⟨hd, by rw [fnext, if_pos hd]⟩
  · rw [if_neg hd] at h
    cases hrem : it.rem with
    | nil =>
      rw [hrem] at h
      injection h with h1 h2
      subst h2
      refine ⟨rfl, ?_⟩
      rw [fnext]
      simp
    | cons v r =>
      rw [hrem] at h
      simp at h

lemma discardN_done (n : ℕ) (it : FIter) (h : it.done = true) :
    discardN n it = it := by
  induction n with
  | zero => rfl
  | succ k ih =>
    have hf : fnext it = (none, it) := by rw [fnext, if_pos h]
    rw [discardN]
    simp only [hf]
    exact ih

lemma nextStage_none_fixed (s s' : Stage) (h : nextStage s = .ok (none, s')) :
    nextStage s' = .ok (none, s') := by
  cases s with
  | identity it =>
    rcases hfi : fnext it with ⟨o, it'⟩
    simp only [nextStage, hfi] at h
    injection h with h1
    injection h1 with ho hs
    subst hs
    subst ho
    have hf := (fnext_none it it' hfi).2
    simp [nextStage, hf]
  | pid ctrl calls offset it =>
    rcases hfi : fnext it with ⟨o, it'⟩
    cases o with
    | some v => simp [nextStage, hfi] at h
    | none =>
      simp only [nextStage, hfi] at h
      injection h with h1
      injection h1 with ho hs
      subst hs
      have hf := (fnext_none it it' hfi).2
      simp [nextStage, hf]
  | dampenedOscillator st it =>
    rcases hfi : fnext it with ⟨o, it'⟩
    cases o with
    | some v => simp [nextStage, hfi] at h
    | none =>
      simp only [nextStage, hfi] at h
      injection h with h1
      injection h1 with ho hs
      subst hs
      have hf := (fnext_none it it' hfi).2
      simp [nextStage, hf]
  | clip minS maxS it =>
    rcases hfi : fnext it with ⟨o, it'⟩
    cases o with
    | some v => simp [nextStage, hfi] at h
    | none =>
      simp only [nextStage, hfi] at h
      injection h with h1
      injection h1 with ho hs
      subst hs
      have hf := (fnext_none it it' hfi).2
      simp [nextStage, hf]
  | atLeast valS it =>
    rcases hfi : fnext it with ⟨o, it'⟩
    cases o with
    | some v => simp [nextStage, hfi] at h
    | none =>
      simp only [nextStage, hfi] at h
      injection h with h1
      injection h1 with ho hs
      subst hs
      have hf := (fnext_none it it' hfi).2
      simp [nextStage, hf]
  | supersample st =>
    by_cases hcond : st.last_val.isSome ∧ st.count < st.n
    · obtain ⟨a, ha⟩ := Option.isSome_iff_exists.mp hcond.1
      simp [nextStage, ssNext, ha, hcond.2] at h
    · rcases hfi : fnext st.iter with ⟨o, it'⟩
      cases o with
      | some v => simp [nextStage, ssNext, if_neg hcond, hfi] at h
      | none =>
        simp only [nextStage, ssNext, if_neg hcond, hfi] at h
        injection h with h1
        injection h1 with ho hs
        subst hs
        have hf := (fnext_none st.iter it' hfi).2
        simp [nextStage, ssNext, hcond, hf]
  | subsample n it =>
    rcases hfi : fnext (discardN n it) with ⟨o, it'⟩
    simp only [nextStage, hfi] at h
    injection h with h1
    injection h1 with ho hs
    subst hs
    subst ho
    obtain ⟨hdone, hf⟩ := fnext_none (discardN n it) it' hfi
    have hd : discardN n it' = it' := discardN_done n it' hdone
    simp [nextStage, hd, hf]
  | average st it =>
    rcases hfi : fnext it with ⟨o, it'⟩
    cases o with
    | some v =>
      cases hstep : avgStep st v with
      | error e => simp [nextStage, hfi, hstep] at h
      | ok q => simp [nextStage, hfi, hstep] at h
    | none =>
      simp only [nextStage, hfi] at h
      injection h with h1
      injection h1 with ho hs
      subst hs
      have hf := (fnext_none it it' hfi).2
      simp [nextStage, hf]

/-- Claim C9: for every stage kind and every upstream sequence, once a pull
of the stage yields nothing (which per the code happens exactly when the
upstream pull yielded nothing), the stage state is a fixed point: every later
pull also yields nothing, and the exhausted upstream is never polled for a
value again - the ghost poll counter of the fused upstream never changes on
any subsequent pull. -/
theorem stage_stops_and_fuses_after_exhaustion (s s' : Stage)
    (h : nextStage s = .ok (none, s')) (k : ℕ) :
    iterStage k s' = s' ∧ nextStage (iterStage k s') = .ok (none, s') ∧
    (iterStage k s').upstreamPolls = s'.upstreamPolls := by
  have hfix := nextStage_none_fixed s s' h
  have hstep : stepStage s' = s' := by rw [stepStage, hfix]
  have hiter : iterStage k s' = s' := by
    induction k with
    | zero => rfl
    | succ m ih =>
      rw [iterStage, hstep]
      exact ih
  exact ⟨hiter, by rw [hiter]; exact hfix, by rw [hiter]⟩

/-- Witness for claim C9 at a concrete input: an Identity stage over an empty
upstream returns nothing on the first pull, and two pulls later it still
returns nothing with the very same state and poll count 1. -/
theorem stage_stops_and_fuses_after_exhaustion_witness :
    nextStage (Stage.identity ⟨[], false, 0⟩) =
      .ok (none, Stage.identity ⟨[], true, 1⟩) ∧
    iterStage 2 (Stage.identity ⟨[], true, 1⟩) = Stage.identity ⟨[], true, 1⟩ ∧
    (Stage.identity ⟨[], true, 1⟩).upstreamPolls = 1 := by
  have h : nextStage (Stage.identity ⟨[], false, 0⟩) =
      .ok (none, Stage.identity ⟨[], true, 1⟩) := rfl
  exact ⟨h, (stage_stops_and_fuses_after_exhaustion _ _ h 2).1, rfl⟩

/-
Pipeline assembly (src/pipeline.rs, Pipeline::start, lines 30-84).

Pipeline::start folds the ordered operation list over the input iterator,
wrapping the accumulated iterator with each operation's apply in turn. No
branch of the fold inspects or validates the parameters: every apply merely
initialises state. The fold is modelled denotationally: each stage is
interpreted by the finite output sequence it produces from the finite output
sequence of its upstream (the per-stage run functions defined above from the
stages' Iterator::next bodies), and the chain is their left-to-right
composition. A configuration fault can therefore only surface through the
error case during evaluation, never during assembly.
-/

/-- The Subsample stage run over a finite upstream (src/operations/mod.rs
lines 444-498): each pull discards n upstream values and returns the one
after; the stage stops when the upstream is exhausted during that. -/
def subRun (n : ℕ) (xs : List ℚ) : List ℚ :=
  match h : xs.drop n with
  | [] => []
  | v :: r => v :: subRun n r
termination_by xs.length
decreasing_by
  have h1 : (xs.drop n).length ≤ xs.length := by
    rw [List.length_drop]
    omega
  rw [h] at h1
  simp at h1
  omega

/-- The OperationParameters union (src/operations/parameters.rs lines
39-50). The pid variant carries the control-output oracle standing for its
Pid state; the oscillator variant carries the m, k, dt, target fields of
DampenedOscillatorParameters. -/
inductive OperationParameters where
  | identity
  | pid (ctrl : ℕ → ℚ × ℚ × ℚ) (offset : ℕ)
  | dampenedOscillator (m k dt target : ℚ)
  | clip (mn mx : ℚ)
  | atLeast (val : ℚ)
  | supersample (n : ℕ)
  | subsample (n : ℕ)
  | average (n : ℕ)

/-- The denotation of one assembled stage on a finite upstream sequence. The
square root used by DampenedOscillatorParameters.apply for the critical
damping coefficient is supplied as the oracle sqrtFn. -/
def stageRun (sqrtFn : ℚ → ℚ) (op : OperationParameters) (xs : List ℚ) :
    Except Unit (List ℚ) :=
  match op with
  | .identity => .ok xs
  | .pid ctrl offset => .ok (pidRun ctrl offset 0 xs)
  | .dampenedOscillator m k dt _ =>
    .ok (oscRun (mkOsc m k dt (2 * sqrtFn (k * m))) xs)
  | .clip mn mx => .ok (xs.map (clipOut (clipApplyMin mn) (clipApplyMax mx)))
  | .atLeast v => .ok (xs.map (atLeastOut (atLeastApply v)))
  | .supersample n => .ok (ssDrain (max n 1 * xs.length + 1) (ssApply n xs))
  | .subsample n => .ok (subRun n xs)
  | .average n => avgRun (avgApply n) xs

/-- The whole assembled chain of Pipeline::start: fold the operation list
left to right over the input sequence, propagating a panic. -/
def pipelineRun (sqrtFn : ℚ → ℚ) (ops : List OperationParameters)
    (input : List ℚ) : Except Unit (List ℚ) :=
  match ops with
  | [] => .ok input
  | op :: rest =>
    match stageRun sqrtFn op input with
    | .error e => .error e
    | .ok ys => pipelineRun sqrtFn rest ys

/-- Claim C3 (counterexample): a pipeline whose spec holds the semantically
invalid stage Average(n = 0) is not rejected before evaluation; the chain is
assembled and the first evaluated value panics: on the one-stage pipeline
[Average 0] with input [5] the evaluation ends in the panic error, instead of
the construction-time rejection the claim asserts. -/
theorem pipeline_average_zero_not_rejected :
    pipelineRun (fun _ => 0) [OperationParameters.average 0] [5] =
      .error () := by
  have h : avgStep (avgApply 0) (5 : ℚ) = .error () := by
    rw [avgStep]
    norm_num [avgApply]
  have h2 : avgRun (avgApply 0) [5] = .error () := by
    rw [avgRun]
    simp only [h]
  rw [pipelineRun, stageRun, h2]

/-- Claim C3 (amended): Pipeline::start performs no validation of the
pipeline spec; a semantically invalid stage such as Average(n = 0) is
assembled without error - with an empty input (no tick evaluated) no fault
occurs at all - and the invalid window size instead causes a panic when the
first value is evaluated, for any square-root oracle, first value and rest
of the input. -/
theorem pipeline_invalid_spec_faults_at_evaluation (sqrtFn : ℚ → ℚ) (v : ℚ)
    (rest : List ℚ) :
    pipelineRun sqrtFn [OperationParameters.average 0] [] = .ok [] ∧
    pipelineRun sqrtFn [OperationParameters.average 0] (v :: rest) =
      .error () := by
  constructor
  · rfl
  · have h : avgStep (avgApply 0) v = .error () := by
      rw [avgStep]
      norm_num [avgApply]
    have h2 : avgRun (avgApply 0) (v :: rest) = .error () := by
      rw [avgRun]
      simp only [h]
    rw [pipelineRun, stageRun, h2]
